import Mathlib

/-!
Verification model of the Arm SCP-firmware CMN600 driver module
(`module/cmn600`): the topology-discovery engine, the System Address Map
(SAM) programming engine and the CCIX link-negotiation state machine.

The repository files under `src/` are the module's public headers
(`mod_cmn600.h`, `internal/cmn600_ctx.h`): they fix the data model
(region types, region-map descriptors, CCIX capability descriptors, the
mesh context and its catalog capacities).  The engines themselves are
declared there but their bodies are not part of the staged sources, so
each engine below is modelled from the specification's description and
is marked `Modelled from the spec:` in its doc comment.
-/

namespace CMN600

/-- MAX_HA_MMAP_ENTRIES from mod_cmn600.h: capacity of the Home Agent
memory-map table. -/
def MAX_HA_MMAP_ENTRIES : Nat := 4

/-- MAX_HNF_COUNT from internal/cmn600_ctx.h: capacity of the HN-F
(cache-slice home node) catalog. -/
def MAX_HNF_COUNT : Nat := 4

/-- MAX_RND_COUNT from internal/cmn600_ctx.h. -/
def MAX_RND_COUNT : Nat := 8

/-- MAX_RNI_COUNT from internal/cmn600_ctx.h. -/
def MAX_RNI_COUNT : Nat := 8

/-- mod_cmn600_memory_region_type from mod_cmn600.h. -/
inductive MemRegionType where
  | Io
  | SYSCACHE
  | SYSCACHE_SUB
  | CCIX
deriving DecidableEq, Repr

/-- mod_cmn600_memory_region_map from mod_cmn600.h.  `base` and `size`
are `uint64_t` in the source; they are modelled as `Nat` with the
64-bit range bound enforced by validation (`entryOk`). -/
structure MemoryRegionMap where
  base : Nat
  size : Nat
  type : MemRegionType
  node_id : Nat
deriving DecidableEq, Repr

/-- Whether a region type is served by the hashed HN-F pool
(only MOD_CMN600_MEMORY_REGION_TYPE_SYSCACHE is). -/
def regionHashed : MemRegionType → Bool
  | .SYSCACHE => true
  | _ => false

/-- Whether an entry is a MOD_CMN600_REGION_TYPE_SYSCACHE_SUB carve-out. -/
def isSub (e : MemoryRegionMap) : Bool :=
  match e.type with
  | .SYSCACHE_SUB => true
  | _ => false

/-- Whether an entry routes to a single explicit target
(IO, SYSCACHE_SUB or CCIX — everything but the hashed SYSCACHE pool). -/
def isNonHashed (e : MemoryRegionMap) : Bool :=
  !(regionHashed e.type)

/-- Half-open range membership test `base ≤ a < base + size`. -/
def containsAddr (base size a : Nat) : Bool :=
  decide (base ≤ a) && decide (a < base + size)

/-- Address `a` lies inside region-map entry `e`. -/
def inRegion (e : MemoryRegionMap) (a : Nat) : Bool :=
  containsAddr e.base e.size a

/-- Modelled from the spec: the deterministic SYSCACHE striping hash.
Addresses are striped over the pool of `P` HN-F nodes at granule `G`;
with `P` and `G` powers of two the map `(a / G) % P` is a pure
bit-selection of the address, as §4.2 requires. -/
def syscacheTarget (G P a : Nat) : Nat :=
  (a / G) % P

/-- Two region-map entries cover disjoint address ranges. -/
def rangesDisjoint (e1 e2 : MemoryRegionMap) : Bool :=
  decide (e1.base + e1.size ≤ e2.base) || decide (e2.base + e2.size ≤ e1.base)

/-- Entry `sub` lies entirely inside entry `sc` (a carve-out). -/
def nestedIn (sub sc : MemoryRegionMap) : Bool :=
  decide (sc.base ≤ sub.base) && decide (sub.base + sub.size ≤ sc.base + sc.size)

/-- Per-entry range invariant of §3: non-zero length and no wrap past
the 64-bit address space of the `uint64_t` base/size fields. -/
def entryOk (e : MemoryRegionMap) : Bool :=
  decide (0 < e.size) && decide (e.base + e.size ≤ 2 ^ 64)

/-- Pair invariant of §3: two explicit-target (IO/SYSCACHE_SUB/CCIX)
entries must not overlap each other, and a hashed SYSCACHE range may
overlap only SYSCACHE_SUB carve-outs, never IO or CCIX ranges. -/
def pairOk (e1 e2 : MemoryRegionMap) : Bool :=
  (!(isNonHashed e1 && isNonHashed e2) || rangesDisjoint e1 e2) &&
  (!(regionHashed e1.type && (isNonHashed e2 && !(isSub e2))) || rangesDisjoint e1 e2) &&
  (!(regionHashed e2.type && (isNonHashed e1 && !(isSub e1))) || rangesDisjoint e1 e2)

/-- `pairOk` for every unordered pair of distinct positions. -/
def pairwiseOk : List MemoryRegionMap → Bool
  | [] => true
  | e :: rest => rest.all (pairOk e) && pairwiseOk rest

/-- Modelled from the spec: the §3/§4.2 region-map validity invariant
checked by `program_sam` before any hardware write. -/
def regionMapValid (mmap : List MemoryRegionMap) : Bool :=
  mmap.all entryOk && pairwiseOk mmap

/-- One decode-table (RN-SAM) entry as programmed into a node: a range
plus either the hashed-pool flag or an explicit target. -/
structure DecodeEntry where
  base : Nat
  size : Nat
  hashed : Bool
  target : Nat
deriving DecidableEq, Repr

/-- The decode entry written for one region-map entry. -/
def toDecode (e : MemoryRegionMap) : DecodeEntry :=
  { base := e.base, size := e.size, hashed := regionHashed e.type,
    target := e.node_id }

/-- Address `a` lies inside decode entry `d`. -/
def inRange (d : DecodeEntry) (a : Nat) : Bool :=
  containsAddr d.base d.size a

/-- Modelled from the spec: the order in which `program_sam` writes the
caller's entries — every non-carve-out entry (in particular every
enclosing SYSCACHE hash entry) first, every SYSCACHE_SUB carve-out
after, so the carve-out takes last-match decode priority (§4.2). -/
def orderedEntries (mmap : List MemoryRegionMap) : List MemoryRegionMap :=
  mmap.filter (fun e => !(isSub e)) ++ mmap.filter isSub

/-- The decode table programmed into every in-scope RN-SAM node. -/
def programmedTable (mmap : List MemoryRegionMap) : List DecodeEntry :=
  (orderedEntries mmap).map toDecode

/-- One fold step of the hardware decode lookup: a later-written
matching entry overrides an earlier one (last-match-wins). -/
def lookupStep (a : Nat) (acc : Option DecodeEntry) (d : DecodeEntry) :
    Option DecodeEntry :=
  if inRange d a then some d else acc

/-- The decode-table lookup: the last entry (in programming order)
whose range contains `a`, if any. -/
def lookupEntry (tbl : List DecodeEntry) (a : Nat) : Option DecodeEntry :=
  tbl.foldl (lookupStep a) none

/-- Where a lookup routes: to an explicit target node or to a node of
the hashed HN-F pool. -/
inductive Route where
  | explicitTo (id : Nat)
  | hashedTo (id : Nat)
deriving DecidableEq, Repr

/-- Full decode of address `a` against a programmed table, with pool
size `P` (the discovered HN-F count) and granule `G`. -/
def decodeRoute (tbl : List DecodeEntry) (G P a : Nat) : Option Route :=
  match lookupEntry tbl a with
  | none => none
  | some d =>
      some (if d.hashed then Route.hashedTo (syscacheTarget G P a)
            else Route.explicitTo d.target)

/-- Register classes of a CMN600 node's register block: the RN-SAM
address-decode registers, and everything else (node control, power
and security registers), which this module never writes on nodes it
does not own. -/
inductive RegClass where
  | rnsam
  | control
  | power
deriving DecidableEq, Repr

/-- One recorded hardware register write emitted by the programming
engine. -/
structure RegWrite where
  node_id : Nat
  is_external : Bool
  cls : RegClass
  entry : DecodeEntry
deriving DecidableEq, Repr

/-- The node classes the discovery engine catalogs (HN-F cache slices,
internal and external RN-SAM address decoders, RN-D and RN-I request
nodes); `other` covers node types the catalogs ignore. -/
inductive NodeClass where
  | HNF
  | RNSAM_int
  | RNSAM_ext
  | RND
  | RNI
  | other
deriving DecidableEq, Repr

/-- One node reached while walking the mesh crosspoint grid: its class
tag, mesh-assigned node identifier, logical device id and the offset of
its register block. -/
structure DiscoveredNode where
  cls : NodeClass
  node_id : Nat
  ldid : Nat
  offset : Nat
deriving DecidableEq, Repr

/-- The error taxonomy of §7 (mapped from the framework status codes the
C functions return). -/
inductive FwkError where
  | CapacityExceeded (cls : NodeClass)
  | TopologyInvalid
  | AlreadyInitialized
  | RegionMapInvalid
  | LinkNotReady
  | CapabilityMismatch
  | SequenceError
  | Timeout
  | HardwareFault
deriving DecidableEq, Repr

/-- cmn600_ctx from internal/cmn600_ctx.h (the fields the discovery and
SAM engines populate and read; the fixed C arrays `hnf_offset[4]`,
`rnd_ldid[8]`, `rni_ldid[8]` are modelled as lists whose lengths the
capacity checks bound).  An `external_rnsam_tuple` is the pair
(node identifier, register-block location). -/
structure cmn600_ctx where
  hnf_count : Nat
  hnf_offset : List Nat
  external_rnsam_count : Nat
  external_rnsam_table : List (Nat × Nat)
  internal_rnsam_count : Nat
  internal_rnsam_table : List Nat
  rnd_count : Nat
  rnd_ldid : List Nat
  rni_count : Nat
  rni_ldid : List Nat
  initialized : Bool
deriving DecidableEq, Repr

/-- The zeroed context the firmware starts from (`initialized` false,
all catalogs empty). -/
def initialCtx : cmn600_ctx :=
  { hnf_count := 0, hnf_offset := [], external_rnsam_count := 0,
    external_rnsam_table := [], internal_rnsam_count := 0,
    internal_rnsam_table := [], rnd_count := 0, rnd_ldid := [],
    rni_count := 0, rni_ldid := [], initialized := false }

/-- The nodes of one class, in the row-major (address-ascending) order
the crosspoint walk reaches them. -/
def nodesOf (topo : List DiscoveredNode) (c : NodeClass) :
    List DiscoveredNode :=
  topo.filter (fun n => n.cls == c)

/-- The context a successful discovery run leaves behind: every
catalog populated in walk order, `initialized` set. -/
def discoveredCtx (topo : List DiscoveredNode) : cmn600_ctx :=
  { hnf_count := (nodesOf topo NodeClass.HNF).length,
    hnf_offset := (nodesOf topo NodeClass.HNF).map DiscoveredNode.offset,
    external_rnsam_count := (nodesOf topo NodeClass.RNSAM_ext).length,
    external_rnsam_table :=
      (nodesOf topo NodeClass.RNSAM_ext).map (fun n => (n.node_id, n.offset)),
    internal_rnsam_count := (nodesOf topo NodeClass.RNSAM_int).length,
    internal_rnsam_table :=
      (nodesOf topo NodeClass.RNSAM_int).map DiscoveredNode.offset,
    rnd_count := (nodesOf topo NodeClass.RND).length,
    rnd_ldid := (nodesOf topo NodeClass.RND).map DiscoveredNode.ldid,
    rni_count := (nodesOf topo NodeClass.RNI).length,
    rni_ldid := (nodesOf topo NodeClass.RNI).map DiscoveredNode.ldid,
    initialized := true }

/-- Modelled from the spec: the §4.1 topology-discovery engine.  It
refuses a second run on an initialized context (`AlreadyInitialized`,
no-op), checks every catalog against its fixed capacity
(`CapacityExceeded` naming the class), requires at least one HN-F
(`TopologyInvalid`), and otherwise populates the catalogs and sets
`initialized` — the one context write of a successful run. -/
def discover (ctx : cmn600_ctx) (topo : List DiscoveredNode) :
    Except FwkError Unit × cmn600_ctx :=
  if ctx.initialized then (.error .AlreadyInitialized, ctx)
  else if MAX_HNF_COUNT < (nodesOf topo NodeClass.HNF).length then
    (.error (.CapacityExceeded NodeClass.HNF), ctx)
  else if MAX_RND_COUNT < (nodesOf topo NodeClass.RND).length then
    (.error (.CapacityExceeded NodeClass.RND), ctx)
  else if MAX_RNI_COUNT < (nodesOf topo NodeClass.RNI).length then
    (.error (.CapacityExceeded NodeClass.RNI), ctx)
  else if (nodesOf topo NodeClass.HNF).length = 0 then
    (.error .TopologyInvalid, ctx)
  else (.ok (), discoveredCtx topo)

/-- The address-decoder nodes `program_sam` writes, as pairs of a node
identifier and an is-external flag: all internal RN-SAMs plus the
external RN-SAM tuples of the context. -/
def decodersInScope (ctx : cmn600_ctx) : List (Nat × Bool) :=
  ctx.internal_rnsam_table.map (fun loc => (loc, false)) ++
  ctx.external_rnsam_table.map (fun t => (t.1, true))

/-- The RN-SAM register writes that program one node's decode table. -/
def nodeWrites (node_id : Nat) (ext : Bool) (tbl : List DecodeEntry) :
    List RegWrite :=
  tbl.map (fun d =>
    { node_id := node_id, is_external := ext, cls := RegClass.rnsam,
      entry := d })

/-- Modelled from the spec: the §4.2 SAM programming engine.
Validation runs before the first hardware write: an invalid region map
fails with `RegionMapInvalid` and emits no write; a CCIX entry before
the link is Coherent fails with `LinkNotReady` and emits no write.
Otherwise every in-scope decoder receives the decode table in
`orderedEntries` order (carve-outs after hash entries), and only RN-SAM
registers are written.  The returned list records every hardware
register write of the call, in order. -/
def program_sam (ctx : cmn600_ctx) (mmap : List MemoryRegionMap)
    (linkCoherent : Bool) : Except FwkError Unit × List RegWrite :=
  if !(regionMapValid mmap) then (.error .RegionMapInvalid, [])
  else if mmap.any (fun e => e.type == MemRegionType.CCIX) && !linkCoherent then
    (.error .LinkNotReady, [])
  else
    (.ok (),
     (decodersInScope ctx).flatMap
       (fun p => nodeWrites p.1 p.2 (programmedTable mmap)))

/-- mod_cmn600_ccix_ha_mmap from mod_cmn600.h: one Home Agent
memory-map table entry. -/
structure ccix_ha_mmap where
  ha_id : Nat
  base : Nat
  size : Nat
deriving DecidableEq, Repr

/-- mod_cmn600_ccix_remote_node_config from mod_cmn600.h: the remote
peer's capability descriptor supplied to `set_config`.  The fixed C
array `remote_ha_mmap[MAX_HA_MMAP_ENTRIES]` is modelled as a list; the
separate `remote_ha_mmap_count` field is what validation checks against
`MAX_HA_MMAP_ENTRIES`. -/
structure ccix_remote_node_config where
  remote_ra_count : Nat
  remote_sa_count : Nat
  remote_ha_count : Nat
  ccix_tc : Nat
  ccix_msg_pack_enable : Bool
  pcie_bus_num : Nat
  ccix_link_id : Nat
  ccix_opt_tlp : Bool
  remote_ha_mmap_count : Nat
  remote_ha_mmap : List ccix_ha_mmap
deriving DecidableEq, Repr

/-- The §4.3 per-link negotiation states. -/
inductive LinkState where
  | Idle
  | CapabilityExchanged
  | CreditExchanged
  | Coherent
  | Failed
deriving DecidableEq, Repr

/-- The state one CCIX link carries: its negotiation state and the
remote Home Agent memory-map entries accepted so far. -/
structure LinkCtx where
  state : LinkState
  accepted_mmap : List ccix_ha_mmap
deriving DecidableEq, Repr

/-- A fresh link: `Idle`, nothing accepted. -/
def initialLink : LinkCtx :=
  { state := LinkState.Idle, accepted_mmap := [] }

/-- Modelled from the spec: `set_config` (§4.3, §8).  Out-of-order
calls are rejected with `SequenceError`.  A remote descriptor whose
Home Agent memory-map count exceeds `MAX_HA_MMAP_ENTRIES` is rejected
with `CapabilityMismatch` before any entry is accepted, leaving the
link in `Idle` (§8: not Failed-from-partial-accept); an out-of-range
protocol parameter (PCIe traffic class above 7) fails with
`CapabilityMismatch` and moves the link to `Failed`.  On success the
descriptor's entries are accepted and the link reaches
`CapabilityExchanged`. -/
def set_config (link : LinkCtx) (cfg : ccix_remote_node_config) :
    Except FwkError Unit × LinkCtx :=
  if link.state = LinkState.Idle then
    if MAX_HA_MMAP_ENTRIES < cfg.remote_ha_mmap_count then
      (.error .CapabilityMismatch, link)
    else if 7 < cfg.ccix_tc then
      (.error .CapabilityMismatch, { link with state := LinkState.Failed })
    else
      (.ok (),
       { state := LinkState.CapabilityExchanged,
         accepted_mmap := cfg.remote_ha_mmap.take cfg.remote_ha_mmap_count })
  else (.error .SequenceError, link)

/-- Modelled from the spec: `exchange_protocol_credit` (§4.3) advances
`CapabilityExchanged → CreditExchanged`; in any other state it fails
with `SequenceError` and leaves the link unchanged. -/
def exchange_protocol_credit (link : LinkCtx) :
    Except FwkError Unit × LinkCtx :=
  match link.state with
  | LinkState.CapabilityExchanged =>
      (.ok (), { link with state := LinkState.CreditExchanged })
  | _ => (.error .SequenceError, link)

/-- Modelled from the spec: `enter_system_coherency` (§4.3) advances
`CreditExchanged → Coherent`; in any other state it fails with
`SequenceError` and leaves the link unchanged. -/
def enter_system_coherency (link : LinkCtx) :
    Except FwkError Unit × LinkCtx :=
  match link.state with
  | LinkState.CreditExchanged =>
      (.ok (), { link with state := LinkState.Coherent })
  | _ => (.error .SequenceError, link)

/-- The decode entry written for a region-map entry covers exactly the
entry's address range. -/
lemma inRange_toDecode (e : MemoryRegionMap) (a : Nat) :
    inRange (toDecode e) a = inRegion e a := rfl

/-- Two entries whose ranges share an address are not disjoint. -/
lemma not_disjoint_of_mem (e1 e2 : MemoryRegionMap) (a : Nat)
    (h1 : inRegion e1 a = true) (h2 : inRegion e2 a = true) :
    rangesDisjoint e1 e2 = false := by
  unfold inRegion containsAddr at h1 h2
  unfold rangesDisjoint
  simp only [Bool.and_eq_true, decide_eq_true_eq] at h1 h2
  simp only [Bool.or_eq_false_iff, decide_eq_false_iff_not]
  omega

/-- A SYSCACHE_SUB entry routes to an explicit target. -/
lemma isSub_nonHashed (e : MemoryRegionMap) (h : isSub e = true) :
    isNonHashed e = true := by
  unfold isSub at h
  unfold isNonHashed regionHashed
  cases hty : e.type <;> simp [hty] at h ⊢

/-- From `pairwiseOk`, any two members of the list are equal or related
by `pairOk` in one of the two orientations. -/
lemma pairwiseOk_rel (l : List MemoryRegionMap) (e1 e2 : MemoryRegionMap)
    (hl : pairwiseOk l = true) (h1 : e1 ∈ l) (h2 : e2 ∈ l) :
    e1 = e2 ∨ pairOk e1 e2 = true ∨ pairOk e2 e1 = true := by
  induction l with
  | nil => cases h1
  | cons x rest ih =>
      unfold pairwiseOk at hl
      rw [Bool.and_eq_true, List.all_eq_true] at hl
      obtain ⟨hx, hrest⟩ := hl
      rcases List.mem_cons.mp h1 with rfl | h1m
      · rcases List.mem_cons.mp h2 with rfl | h2m
        · exact Or.inl rfl
        · exact Or.inr (Or.inl (hx e2 h2m))
      · rcases List.mem_cons.mp h2 with rfl | h2m
        · exact Or.inr (Or.inr (hx e1 h1m))
        · exact ih hrest h1m h2m

/-- In a pairwise-valid region map, at most one explicit-target
(non-hashed) entry covers any given address. -/
lemma nonHashed_unique (l : List MemoryRegionMap)
    (hl : pairwiseOk l = true) (e1 e2 : MemoryRegionMap)
    (h1 : e1 ∈ l) (h2 : e2 ∈ l)
    (hn1 : isNonHashed e1 = true) (hn2 : isNonHashed e2 = true)
    (a : Nat) (ha1 : inRegion e1 a = true) (ha2 : inRegion e2 a = true) :
    e1 = e2 := by
  rcases pairwiseOk_rel l e1 e2 hl h1 h2 with h | h | h
  · exact h
  · exfalso
    unfold pairOk at h
    rw [not_disjoint_of_mem e1 e2 a ha1 ha2] at h
    simp [hn1, hn2] at h
  · exfalso
    unfold pairOk at h
    rw [not_disjoint_of_mem e2 e1 a ha2 ha1] at h
    simp [hn1, hn2] at h

/-- In a pairwise-valid region map, a hashed SYSCACHE range never
shares an address with an IO or CCIX (non-hashed, non-carve-out)
entry. -/
lemma hashed_nonhashed_disjoint (l : List MemoryRegionMap)
    (hl : pairwiseOk l = true) (e1 e2 : MemoryRegionMap)
    (h1 : e1 ∈ l) (h2 : e2 ∈ l)
    (hh : regionHashed e1.type = true)
    (hn : isNonHashed e2 = true) (hs : isSub e2 = false)
    (a : Nat) (ha1 : inRegion e1 a = true) (ha2 : inRegion e2 a = true) :
    False := by
  rcases pairwiseOk_rel l e1 e2 hl h1 h2 with h | h | h
  · subst h
    unfold isNonHashed at hn
    rw [hh] at hn
    simp at hn
  · unfold pairOk at h
    rw [not_disjoint_of_mem e1 e2 a ha1 ha2] at h
    simp [hh, hn, hs] at h
  · unfold pairOk at h
    rw [not_disjoint_of_mem e2 e1 a ha2 ha1] at h
    simp [hh, hn, hs] at h

/-- If every matching entry of `l` equals `c` then folding the lookup
step over `l` keeps the accumulator `some c`. -/
lemma foldl_lookupStep_const (a : Nat) (c : DecodeEntry) :
    ∀ (l : List DecodeEntry),
      (∀ d ∈ l, inRange d a = true → d = c) →
      l.foldl (lookupStep a) (some c) = some c := by
  intro l
  induction l with
  | nil => intro _; rfl
  | cons x xs ih =>
      intro h
      rw [List.foldl_cons]
      by_cases hx : inRange x a = true
      · have hstep : lookupStep a (some c) x = some c := by
          unfold lookupStep
          rw [if_pos hx, h x (List.mem_cons_self x xs) hx]
        rw [hstep]
        exact ih (fun d hd => h d (List.mem_cons_of_mem x hd))
      · have hstep : lookupStep a (some c) x = some c := by
          unfold lookupStep
          rw [if_neg hx]
        rw [hstep]
        exact ih (fun d hd => h d (List.mem_cons_of_mem x hd))

/-- If `c` is the unique entry of `l` covering `a`, the last-match fold
over `l` returns `c` whatever the accumulator held before. -/
lemma foldl_lookupStep_pick (a : Nat) (c : DecodeEntry) :
    ∀ (l : List DecodeEntry) (acc : Option DecodeEntry),
      c ∈ l → inRange c a = true →
      (∀ d ∈ l, inRange d a = true → d = c) →
      l.foldl (lookupStep a) acc = some c := by
  intro l
  induction l with
  | nil => intro acc hc _ _; cases hc
  | cons x xs ih =>
      intro acc hc hca h
      rw [List.foldl_cons]
      by_cases hx : inRange x a = true
      · have hstep : lookupStep a acc x = some c := by
          unfold lookupStep
          rw [if_pos hx, h x (List.mem_cons_self x xs) hx]
        rw [hstep]
        exact foldl_lookupStep_const a c xs
          (fun d hd => h d (List.mem_cons_of_mem x hd))
      · have hcx : c ∈ xs := by
          rcases List.mem_cons.mp hc with rfl | hm
          · exact absurd hca hx
          · exact hm
        have hstep : lookupStep a acc x = acc := by
          unfold lookupStep
          rw [if_neg hx]
        rw [hstep]
        exact ih acc hcx hca (fun d hd => h d (List.mem_cons_of_mem x hd))

/-- Whatever the last-match fold returns came from the list (and covers
the address) or was already in the accumulator. -/
lemma foldl_lookupStep_some (a : Nat) :
    ∀ (l : List DecodeEntry) (acc : Option DecodeEntry) (d : DecodeEntry),
      l.foldl (lookupStep a) acc = some d →
      (d ∈ l ∧ inRange d a = true) ∨ acc = some d := by
  intro l
  induction l with
  | nil => intro acc d h; exact Or.inr h
  | cons x xs ih =>
      intro acc d h
      rw [List.foldl_cons] at h
      rcases ih _ d h with ⟨hm, hr⟩ | hacc
      · exact Or.inl ⟨List.mem_cons_of_mem x hm, hr⟩
      · unfold lookupStep at hacc
        by_cases hx : inRange x a = true
        · rw [if_pos hx] at hacc
          rw [← Option.some.inj hacc]
          exact Or.inl ⟨List.mem_cons_self x xs, hx⟩
        · rw [if_neg hx] at hacc
          exact Or.inr hacc

/-- Reordering the entries for programming loses and invents no
entry. -/
lemma mem_orderedEntries (mmap : List MemoryRegionMap)
    (e : MemoryRegionMap) : e ∈ orderedEntries mmap ↔ e ∈ mmap := by
  unfold orderedEntries
  rw [List.mem_append, List.mem_filter, List.mem_filter]
  constructor
  · rintro (⟨h, _⟩ | ⟨h, _⟩) <;> exact h
  · intro h
    by_cases hs : isSub e = true
    · exact Or.inr ⟨h, hs⟩
    · exact Or.inl ⟨h, by simp [hs]⟩

/-- A successful `program_sam` call implies the region map passed
validation. -/
lemma program_sam_ok_valid (ctx : cmn600_ctx)
    (mmap : List MemoryRegionMap) (linkCoherent : Bool)
    (h : (program_sam ctx mmap linkCoherent).1 = .ok ()) :
    regionMapValid mmap = true := by
  unfold program_sam at h
  by_cases hv : regionMapValid mmap = true
  · exact hv
  · simp [hv] at h

/-- In a valid region map, the unique decode entry covering an address
of an explicit-target non-carve-out (IO or CCIX) entry is that entry's
own. -/
lemma programmedTable_unique_nonhashed (mmap : List MemoryRegionMap)
    (hv : regionMapValid mmap = true) (e : MemoryRegionMap)
    (he : e ∈ mmap) (hne : isNonHashed e = true) (hns : isSub e = false)
    (a : Nat) (ha : inRegion e a = true) :
    ∀ d ∈ programmedTable mmap, inRange d a = true → d = toDecode e := by
  intro d hd hda
  unfold programmedTable at hd
  rcases List.mem_map.mp hd with ⟨e2, he2, rfl⟩
  have he2m : e2 ∈ mmap := (mem_orderedEntries mmap e2).mp he2
  rw [inRange_toDecode] at hda
  have hpw : pairwiseOk mmap = true := by
    unfold regionMapValid at hv
    rw [Bool.and_eq_true] at hv
    exact hv.2
  by_cases hh : isNonHashed e2 = true
  · exact congrArg toDecode
      (nonHashed_unique mmap hpw e2 e he2m he hh hne a hda ha)
  · have hhh : regionHashed e2.type = true := by
      unfold isNonHashed at hh
      simp at hh
      exact hh
    exact (hashed_nonhashed_disjoint mmap hpw e2 e he2m he hhh hne hns
      a hda ha).elim

/-- C1: for a SYSCACHE region striped over a pool of `P` HN-F nodes
(`P` a power of two) at granule `G`, the address-to-home-node map is
periodic — `target (a + k·P·G) = target a` whenever both addresses lie
in the region — and deterministic: the hash is a pure function of the
address, so repeated evaluation under one configuration returns the
same home node. -/
theorem syscache_target_periodic (r : MemoryRegionMap) (G P a k : Nat)
    (hr : r.type = MemRegionType.SYSCACHE)
    (hP : ∃ p, P = 2 ^ p) (hG : 0 < G)
    (ha : inRegion r a = true)
    (hak : inRegion r (a + k * (P * G)) = true) :
    syscacheTarget G P (a + k * (P * G)) = syscacheTarget G P a ∧
    syscacheTarget G P a = syscacheTarget G P a := by
  refine ⟨?_, rfl⟩
  unfold syscacheTarget
  have h1 : a + k * (P * G) = a + (k * P) * G := by ring
  rw [h1, Nat.add_mul_div_right _ _ hG, Nat.add_mul_mod_self_right]

/-- Witness for C1 at a concrete configuration: SYSCACHE region
`[0, 2^20)`, pool size `P = 4`, granule `G = 64`, address `a = 100`,
stride count `k = 3`. -/
theorem syscache_target_periodic_witness :
    syscacheTarget 64 4 (100 + 3 * (4 * 64)) = syscacheTarget 64 4 100 ∧
    syscacheTarget 64 4 100 = syscacheTarget 64 4 100 :=
  syscache_target_periodic
    { base := 0, size := 2 ^ 20, type := MemRegionType.SYSCACHE, node_id := 0 }
    64 4 100 3 rfl ⟨2, rfl⟩ (by decide) (by decide) (by decide)

/-- C3: a region map that violates a validity invariant makes
`program_sam` fail with `RegionMapInvalid` after zero hardware register
writes, whatever the context and link state — validation completes
before the first write, so every decode table is left exactly as it
was. -/
theorem program_sam_invalid_map_no_writes (ctx : cmn600_ctx)
    (mmap : List MemoryRegionMap) (linkCoherent : Bool)
    (hinv : regionMapValid mmap = false) :
    program_sam ctx mmap linkCoherent =
      (.error FwkError.RegionMapInvalid, ([] : List RegWrite)) := by
  unfold program_sam
  rw [hinv]
  rfl

/-- Witness for C3: two overlapping IO entries
(`[0, 0x10000)` and `[0x8000, 0x18000)`) fail validation; the call
reports `RegionMapInvalid` and records no write. -/
theorem program_sam_invalid_map_no_writes_witness :
    program_sam initialCtx
      [{ base := 0, size := 0x10000, type := MemRegionType.Io, node_id := 10 },
       { base := 0x8000, size := 0x10000, type := MemRegionType.Io,
         node_id := 11 }] true =
      (.error FwkError.RegionMapInvalid, ([] : List RegWrite)) :=
  program_sam_invalid_map_no_writes initialCtx
    [{ base := 0, size := 0x10000, type := MemRegionType.Io, node_id := 10 },
     { base := 0x8000, size := 0x10000, type := MemRegionType.Io,
       node_id := 11 }] true (by decide)

/-- C4: the per-link CCIX negotiation only advances along
Idle → CapabilityExchanged → CreditExchanged → Coherent.  Credit
exchange before capability exchange (in particular on an `Idle` link,
before any `set_config`) fails with `SequenceError` and leaves the
link unchanged; `exchange_protocol_credit` succeeds exactly in
`CapabilityExchanged` and `enter_system_coherency` exactly in
`CreditExchanged`, each failing with `SequenceError` and leaving the
state unchanged otherwise; and `CreditExchanged` — the only state from
which coherency entry succeeds — is produced by no operation other
than a successful `exchange_protocol_credit`. -/
theorem ccix_link_state_order :
    (∀ link : LinkCtx, link.state = LinkState.Idle →
      exchange_protocol_credit link = (.error FwkError.SequenceError, link)) ∧
    (∀ (link : LinkCtx) (cfg : ccix_remote_node_config) (link2 : LinkCtx),
      set_config link cfg = (.ok (), link2) →
      link.state = LinkState.Idle ∧
      link2.state = LinkState.CapabilityExchanged) ∧
    (∀ link : LinkCtx, (exchange_protocol_credit link).1 = .ok () ↔
      link.state = LinkState.CapabilityExchanged) ∧
    (∀ (link link2 : LinkCtx),
      exchange_protocol_credit link = (.ok (), link2) →
      link2.state = LinkState.CreditExchanged) ∧
    (∀ link : LinkCtx, (enter_system_coherency link).1 = .ok () ↔
      link.state = LinkState.CreditExchanged) ∧
    (∀ link : LinkCtx, (exchange_protocol_credit link).1 ≠ .ok () →
      (exchange_protocol_credit link).2 = link) ∧
    (∀ link : LinkCtx, (enter_system_coherency link).1 ≠ .ok () →
      (enter_system_coherency link).2 = link) ∧
    (∀ (link : LinkCtx) (cfg : ccix_remote_node_config),
      (set_config link cfg).2.state = LinkState.CreditExchanged →
      link.state = LinkState.CreditExchanged) ∧
    (∀ link : LinkCtx,
      (enter_system_coherency link).2.state ≠ LinkState.CreditExchanged) ∧
    initialLink.state = LinkState.Idle := by
  refine ⟨?_, ?_, ?_, ?_, ?_, ?_, ?_, ?_, ?_, rfl⟩
  · intro link h
    unfold exchange_protocol_credit
    rw [h]
  · intro link cfg link2 h
    unfold set_config at h
    by_cases hst : link.state = LinkState.Idle
    · refine ⟨hst, ?_⟩
      rw [if_pos hst] at h
      split at h
      · exact absurd h (by simp)
      · split at h
        · exact absurd h (by simp)
        · rw [Prod.mk.injEq] at h
          rw [← h.2]
    · rw [if_neg hst] at h
      exact absurd h (by simp)
  · intro link
    obtain ⟨st, acc⟩ := link
    cases st <;> simp [exchange_protocol_credit]
  · intro link link2 h
    obtain ⟨st, acc⟩ := link
    cases st with
    | CapabilityExchanged =>
        rw [show exchange_protocol_credit
            { state := LinkState.CapabilityExchanged, accepted_mmap := acc } =
            (.ok (), { state := LinkState.CreditExchanged,
                       accepted_mmap := acc }) from rfl] at h
        rw [Prod.mk.injEq] at h
        rw [← h.2]
    | Idle => simp [exchange_protocol_credit] at h
    | CreditExchanged => simp [exchange_protocol_credit] at h
    | Coherent => simp [exchange_protocol_credit] at h
    | Failed => simp [exchange_protocol_credit] at h
  · intro link
    obtain ⟨st, acc⟩ := link
    cases st <;> simp [enter_system_coherency]
  · intro link h
    obtain ⟨st, acc⟩ := link
    cases st <;> simp [exchange_protocol_credit] at h ⊢
  · intro link h
    obtain ⟨st, acc⟩ := link
    cases st <;> simp [enter_system_coherency] at h ⊢
  · intro link cfg h
    unfold set_config at h
    by_cases hst : link.state = LinkState.Idle
    · rw [if_pos hst] at h
      split at h
      · exact h
      · split at h
        · simp at h
        · simp at h
    · rw [if_neg hst] at h
      exact h
  · intro link h
    obtain ⟨st, acc⟩ := link
    cases st <;> simp [enter_system_coherency] at h

/-- C5: a remote capability descriptor whose Home Agent memory-map
entry count exceeds `MAX_HA_MMAP_ENTRIES` (4) makes `set_config` fail
with `CapabilityMismatch`; no entry of the descriptor is accepted and
the link stays in `Idle` — no partially accepted configuration. -/
theorem set_config_mmap_capacity (link : LinkCtx)
    (cfg : ccix_remote_node_config)
    (hidle : link.state = LinkState.Idle)
    (hover : MAX_HA_MMAP_ENTRIES < cfg.remote_ha_mmap_count) :
    set_config link cfg = (.error FwkError.CapabilityMismatch, link) ∧
    (set_config link cfg).2.state = LinkState.Idle ∧
    (set_config link cfg).2.accepted_mmap = link.accepted_mmap := by
  have h : set_config link cfg = (.error FwkError.CapabilityMismatch, link) := by
    unfold set_config
    rw [if_pos hidle, if_pos hover]
  exact ⟨h, by rw [h]; exact hidle, by rw [h]⟩

/-- Case analysis of a discovery run: either it succeeds and returns
the populated context with every catalog within its capacity, or it
fails and leaves the caller's context untouched. -/
lemma discover_total (ctx : cmn600_ctx) (topo : List DiscoveredNode) :
    (discover ctx topo = (.ok (), discoveredCtx topo) ∧
      (nodesOf topo NodeClass.HNF).length ≤ MAX_HNF_COUNT ∧
      (nodesOf topo NodeClass.RND).length ≤ MAX_RND_COUNT ∧
      (nodesOf topo NodeClass.RNI).length ≤ MAX_RNI_COUNT ∧
      0 < (nodesOf topo NodeClass.HNF).length) ∨
    ((discover ctx topo).1 ≠ .ok () ∧ (discover ctx topo).2 = ctx) := by
  unfold discover
  by_cases h0 : ctx.initialized = true
  · rw [if_pos h0]
    exact Or.inr ⟨by simp, rfl⟩
  · rw [if_neg h0]
    by_cases h1 : MAX_HNF_COUNT < (nodesOf topo NodeClass.HNF).length
    · rw [if_pos h1]
      exact Or.inr ⟨by simp, rfl⟩
    · rw [if_neg h1]
      by_cases h2 : MAX_RND_COUNT < (nodesOf topo NodeClass.RND).length
      · rw [if_pos h2]
        exact Or.inr ⟨by simp, rfl⟩
      · rw [if_neg h2]
        by_cases h3 : MAX_RNI_COUNT < (nodesOf topo NodeClass.RNI).length
        · rw [if_pos h3]
          exact Or.inr ⟨by simp, rfl⟩
        · rw [if_neg h3]
          by_cases h4 : (nodesOf topo NodeClass.HNF).length = 0
          · rw [if_pos h4]
            exact Or.inr ⟨by simp, rfl⟩
          · rw [if_neg h4]
            exact Or.inl ⟨rfl, by omega, by omega, by omega, by omega⟩

/-- A run that starts on an already-initialized context fails with
`AlreadyInitialized` and is a no-op on the context. -/
lemma discover_already (ctx : cmn600_ctx) (topo : List DiscoveredNode)
    (h : ctx.initialized = true) :
    discover ctx topo = (.error .AlreadyInitialized, ctx) := by
  unfold discover
  rw [if_pos h]

/-- C6: a topology whose node count exceeds the fixed capacity of any
class's catalog makes `discover` fail with `CapacityExceeded` naming
that node class and leaves the fresh context untouched: HN-F overflow
names `HNF`; RN-D overflow (HN-F fitting) names `RND`; RN-I overflow
(HN-F and RN-D fitting) names `RNI`; and whenever any class overflows,
the reported error is `CapacityExceeded c` for a class `c` whose count
does exceed its capacity.  From a fresh context, discovery succeeds
exactly when every node class fits its catalog capacity and at least
one HN-F exists, and on success it populates the catalogs from the
topology. -/
theorem discover_capacity_check (topo : List DiscoveredNode) :
    (MAX_HNF_COUNT < (nodesOf topo NodeClass.HNF).length →
      discover initialCtx topo =
        (.error (FwkError.CapacityExceeded NodeClass.HNF), initialCtx)) ∧
    ((nodesOf topo NodeClass.HNF).length ≤ MAX_HNF_COUNT →
      MAX_RND_COUNT < (nodesOf topo NodeClass.RND).length →
      discover initialCtx topo =
        (.error (FwkError.CapacityExceeded NodeClass.RND), initialCtx)) ∧
    ((nodesOf topo NodeClass.HNF).length ≤ MAX_HNF_COUNT →
      (nodesOf topo NodeClass.RND).length ≤ MAX_RND_COUNT →
      MAX_RNI_COUNT < (nodesOf topo NodeClass.RNI).length →
      discover initialCtx topo =
        (.error (FwkError.CapacityExceeded NodeClass.RNI), initialCtx)) ∧
    ((MAX_HNF_COUNT < (nodesOf topo NodeClass.HNF).length ∨
      MAX_RND_COUNT < (nodesOf topo NodeClass.RND).length ∨
      MAX_RNI_COUNT < (nodesOf topo NodeClass.RNI).length) →
      ∃ c : NodeClass,
        (discover initialCtx topo).1 = .error (FwkError.CapacityExceeded c) ∧
        ((c = NodeClass.HNF ∧
            MAX_HNF_COUNT < (nodesOf topo NodeClass.HNF).length) ∨
         (c = NodeClass.RND ∧
            MAX_RND_COUNT < (nodesOf topo NodeClass.RND).length) ∨
         (c = NodeClass.RNI ∧
            MAX_RNI_COUNT < (nodesOf topo NodeClass.RNI).length))) ∧
    ((discover initialCtx topo).1 = .ok () ↔
      ((nodesOf topo NodeClass.HNF).length ≤ MAX_HNF_COUNT ∧
       (nodesOf topo NodeClass.RND).length ≤ MAX_RND_COUNT ∧
       (nodesOf topo NodeClass.RNI).length ≤ MAX_RNI_COUNT ∧
       0 < (nodesOf topo NodeClass.HNF).length)) ∧
    ((discover initialCtx topo).1 = .ok () →
      (discover initialCtx topo).2 = discoveredCtx topo) := by
  have hini : ¬(initialCtx.initialized = true) := by
    intro h
    exact absurd h (by decide)
  unfold discover
  rw [if_neg hini]
  by_cases h1 : MAX_HNF_COUNT < (nodesOf topo NodeClass.HNF).length
  · rw [if_pos h1]
    exact ⟨fun _ => rfl,
      fun hle _ => absurd h1 (by omega),
      fun hle _ _ => absurd h1 (by omega),
      fun _ => ⟨NodeClass.HNF, rfl, Or.inl ⟨rfl, h1⟩⟩,
      ⟨fun hx => absurd hx (by simp), fun hx => absurd hx.1 (by omega)⟩,
      fun hx => absurd hx (by simp)⟩
  · rw [if_neg h1]
    by_cases h2 : MAX_RND_COUNT < (nodesOf topo NodeClass.RND).length
    · rw [if_pos h2]
      exact ⟨fun hc => absurd hc h1,
        fun _ _ => rfl,
        fun _ hle _ => absurd h2 (by omega),
        fun _ => ⟨NodeClass.RND, rfl, Or.inr (Or.inl ⟨rfl, h2⟩)⟩,
        ⟨fun hx => absurd hx (by simp), fun hx => absurd hx.2.1 (by omega)⟩,
        fun hx => absurd hx (by simp)⟩
    · rw [if_neg h2]
      by_cases h3 : MAX_RNI_COUNT < (nodesOf topo NodeClass.RNI).length
      · rw [if_pos h3]
        exact ⟨fun hc => absurd hc h1,
          fun _ hrnd => absurd hrnd h2,
          fun _ _ _ => rfl,
          fun _ => ⟨NodeClass.RNI, rfl, Or.inr (Or.inr ⟨rfl, h3⟩)⟩,
          ⟨fun hx => absurd hx (by simp), fun hx => absurd hx.2.2.1 (by omega)⟩,
          fun hx => absurd hx (by simp)⟩
      · rw [if_neg h3]
        by_cases h4 : (nodesOf topo NodeClass.HNF).length = 0
        · rw [if_pos h4]
          exact ⟨fun hc => absurd hc h1,
            fun _ hrnd => absurd hrnd h2,
            fun _ _ hrni => absurd hrni h3,
            fun hover => absurd hover (by omega),
            ⟨fun hx => absurd hx (by simp), fun hx => absurd hx.2.2.2 (by omega)⟩,
            fun hx => absurd hx (by simp)⟩
        · rw [if_neg h4]
          exact ⟨fun hc => absurd hc h1,
            fun _ hrnd => absurd hrnd h2,
            fun _ _ hrni => absurd hrni h3,
            fun hover => absurd hover (by omega),
            ⟨fun _ => ⟨by omega, by omega, by omega, by omega⟩, fun _ => rfl⟩,
            fun _ => rfl⟩

/-- C7: a second `discover` on a context whose `initialized` flag is
already set fails with `AlreadyInitialized` and changes nothing: the
context after the failed second call is the one the first successful
call produced, `initialized` started `false` in the fresh context and
is `true` after the success — it flips exactly once. -/
theorem discover_reinit_noop (ctx : cmn600_ctx)
    (topo topo2 : List DiscoveredNode)
    (hok : (discover initialCtx topo).1 = .ok ()) :
    discover (discover initialCtx topo).2 topo2 =
      (.error FwkError.AlreadyInitialized, (discover initialCtx topo).2) ∧
    (discover initialCtx topo).2.initialized = true ∧
    initialCtx.initialized = false ∧
    (ctx.initialized = true →
      discover ctx topo2 = (.error FwkError.AlreadyInitialized, ctx)) := by
  have h2 : (discover initialCtx topo).2 = discoveredCtx topo := by
    rcases discover_total initialCtx topo with ⟨heq, _⟩ | ⟨hne, _⟩
    · rw [heq]
    · exact absurd hok hne
  have hinit : (discover initialCtx topo).2.initialized = true := by
    rw [h2]
    rfl
  exact ⟨discover_already _ topo2 hinit, hinit, rfl,
    fun hc => discover_already ctx topo2 hc⟩

/-- Witness for C7: discovery of a one-HN-F topology succeeds; running
discovery again on the resulting context fails with
`AlreadyInitialized` and returns that context unchanged. -/
theorem discover_reinit_noop_witness :
    discover (discover initialCtx
        [{ cls := NodeClass.HNF, node_id := 1, ldid := 0, offset := 256 }]).2
      [] =
    (.error FwkError.AlreadyInitialized,
      (discover initialCtx
        [{ cls := NodeClass.HNF, node_id := 1, ldid := 0, offset := 256 }]).2) :=
  (discover_reinit_noop initialCtx
    [{ cls := NodeClass.HNF, node_id := 1, ldid := 0, offset := 256 }] []
    rfl).1

/-- C10: the HN-F catalog capacity is 4 — strictly smaller than the
8-entry RN-D and RN-I catalogs — every context a discovery run returns
keeps each count at or below its capacity, and a topology with more
than 4 cache-slice home nodes is rejected by discovery with
`CapacityExceeded` for the HN-F class. -/
theorem hnf_catalog_capacity_invariant :
    MAX_HNF_COUNT = 4 ∧ MAX_RND_COUNT = 8 ∧ MAX_RNI_COUNT = 8 ∧
    MAX_HNF_COUNT < MAX_RND_COUNT ∧ MAX_HNF_COUNT < MAX_RNI_COUNT ∧
    (∀ (ctx : cmn600_ctx) (topo : List DiscoveredNode),
      ctx.hnf_count ≤ MAX_HNF_COUNT ∧ ctx.rnd_count ≤ MAX_RND_COUNT ∧
        ctx.rni_count ≤ MAX_RNI_COUNT →
      (discover ctx topo).2.hnf_count ≤ MAX_HNF_COUNT ∧
      (discover ctx topo).2.rnd_count ≤ MAX_RND_COUNT ∧
      (discover ctx topo).2.rni_count ≤ MAX_RNI_COUNT) ∧
    (∀ (ctx : cmn600_ctx) (topo : List DiscoveredNode),
      ctx.initialized = false →
      MAX_HNF_COUNT < (nodesOf topo NodeClass.HNF).length →
      discover ctx topo =
        (.error (FwkError.CapacityExceeded NodeClass.HNF), ctx)) := by
  refine ⟨rfl, rfl, rfl, by decide, by decide, ?_, ?_⟩
  · intro ctx topo hctx
    rcases discover_total ctx topo with ⟨heq, b1, b2, b3, _⟩ | ⟨_, heq⟩
    · rw [heq]
      exact ⟨b1, b2, b3⟩
    · rw [heq]
      exact hctx
  · intro ctx topo h0 hcap
    have hini : ¬(ctx.initialized = true) := by
      rw [h0]
      simp
    unfold discover
    rw [if_neg hini, if_pos hcap]

/-- Witness for C5: a fresh `Idle` link rejects a descriptor with 5
Home Agent memory-map entries and is left exactly as it was. -/
theorem set_config_mmap_capacity_witness :
    set_config initialLink
      { remote_ra_count := 2, remote_sa_count := 1, remote_ha_count := 1,
        ccix_tc := 0, ccix_msg_pack_enable := false, pcie_bus_num := 0,
        ccix_link_id := 0, ccix_opt_tlp := false,
        remote_ha_mmap_count := 5,
        remote_ha_mmap :=
          [{ ha_id := 0, base := 0, size := 4096 },
           { ha_id := 1, base := 4096, size := 4096 },
           { ha_id := 2, base := 8192, size := 4096 },
           { ha_id := 3, base := 12288, size := 4096 },
           { ha_id := 4, base := 16384, size := 4096 }] } =
      (.error FwkError.CapabilityMismatch, initialLink) :=
  (set_config_mmap_capacity initialLink _ rfl (by decide)).1

/-- C8: after a successful `program_sam`, every address inside an IO
entry's half-open range decodes to that entry's explicit target node
(no hashing), and the address `base + size` is outside the entry: it
is resolved by a different covering entry or by none. -/
theorem io_region_fixed_target (ctx : cmn600_ctx)
    (mmap : List MemoryRegionMap) (linkCoherent : Bool)
    (e : MemoryRegionMap) (G P a : Nat)
    (hok : (program_sam ctx mmap linkCoherent).1 = .ok ())
    (he : e ∈ mmap) (hty : e.type = MemRegionType.Io)
    (ha1 : e.base ≤ a) (ha2 : a < e.base + e.size) :
    decodeRoute (programmedTable mmap) G P a =
      some (Route.explicitTo e.node_id) ∧
    inRange (toDecode e) (e.base + e.size) = false ∧
    (lookupEntry (programmedTable mmap) (e.base + e.size) = none ∨
      ∃ d, lookupEntry (programmedTable mmap) (e.base + e.size) = some d ∧
        d ≠ toDecode e ∧ inRange d (e.base + e.size) = true) := by
  have hv := program_sam_ok_valid ctx mmap linkCoherent hok
  have hne : isNonHashed e = true := by
    simp [isNonHashed, regionHashed, hty]
  have hns : isSub e = false := by
    simp [isSub, hty]
  have hina : inRegion e a = true := by
    unfold inRegion containsAddr
    simp only [Bool.and_eq_true, decide_eq_true_eq]
    omega
  have huniq := programmedTable_unique_nonhashed mmap hv e he hne hns a hina
  have hmem : toDecode e ∈ programmedTable mmap := by
    unfold programmedTable
    exact List.mem_map_of_mem toDecode ((mem_orderedEntries mmap e).mpr he)
  have hlook : lookupEntry (programmedTable mmap) a = some (toDecode e) := by
    unfold lookupEntry
    exact foldl_lookupStep_pick a (toDecode e) (programmedTable mmap) none
      hmem (by rw [inRange_toDecode]; exact hina) huniq
  have hout : inRange (toDecode e) (e.base + e.size) = false := by
    rw [inRange_toDecode]
    unfold inRegion containsAddr
    simp
  refine ⟨?_, hout, ?_⟩
  · simp [decodeRoute, hlook, toDecode, regionHashed, hty]
  · cases hlk : lookupEntry (programmedTable mmap) (e.base + e.size) with
    | none => exact Or.inl rfl
    | some d =>
        have hlk2 : (programmedTable mmap).foldl
            (lookupStep (e.base + e.size)) none = some d := hlk
        rcases foldl_lookupStep_some (e.base + e.size)
            (programmedTable mmap) none d hlk2 with ⟨_, hdr⟩ | habs
        · refine Or.inr ⟨d, rfl, ?_, hdr⟩
          intro hcontra
          rw [hcontra, hout] at hdr
          exact Bool.noConfusion hdr
        · exact Option.noConfusion habs

/-- Witness for C8: a region map with IO entries `[0, 0x10000) → 10`
and `[0x10000, 0x11000) → 11`; address `0xFF` decodes to node 10. -/
theorem io_region_fixed_target_witness :
    decodeRoute (programmedTable
      [{ base := 0, size := 0x10000, type := MemRegionType.Io, node_id := 10 },
       { base := 0x10000, size := 0x1000, type := MemRegionType.Io,
         node_id := 11 }]) 64 4 0xFF =
      some (Route.explicitTo 10) :=
  (io_region_fixed_target initialCtx
    [{ base := 0, size := 0x10000, type := MemRegionType.Io, node_id := 10 },
     { base := 0x10000, size := 0x1000, type := MemRegionType.Io,
       node_id := 11 }] true
    { base := 0, size := 0x10000, type := MemRegionType.Io, node_id := 10 }
    64 4 0xFF rfl (by simp) rfl (by decide) (by decide)).1

/-- C9: every hardware register write `program_sam` emits goes to the
RN-SAM (address-decode) register class — never to any other register —
and a write flagged external targets a node recorded in the context's
external RN-SAM table; discovery and the CCIX operations emit no
hardware write in this model, so no other register of an external node
is ever touched. -/
theorem program_sam_only_rnsam_writes (ctx : cmn600_ctx)
    (mmap : List MemoryRegionMap) (linkCoherent : Bool) (w : RegWrite)
    (hw : w ∈ (program_sam ctx mmap linkCoherent).2) :
    w.cls = RegClass.rnsam ∧
    (w.is_external = true →
      w.node_id ∈ ctx.external_rnsam_table.map Prod.fst) := by
  unfold program_sam at hw
  split at hw
  · exact absurd hw (List.not_mem_nil w)
  · split at hw
    · exact absurd hw (List.not_mem_nil w)
    · rcases List.mem_flatMap.mp hw with ⟨p, hp, hwp⟩
      unfold nodeWrites at hwp
      rcases List.mem_map.mp hwp with ⟨d, _, rfl⟩
      refine ⟨rfl, ?_⟩
      intro hext
      unfold decodersInScope at hp
      rcases List.mem_append.mp hp with hint | hex
      · rcases List.mem_map.mp hint with ⟨loc, _, rfl⟩
        exact Bool.noConfusion hext
      · rcases List.mem_map.mp hex with ⟨t, ht, rfl⟩
        exact List.mem_map_of_mem Prod.fst ht

/-- Witness for C9: with one internal decoder and one external decoder
(node 7), the write this call emits to node 7 is an RN-SAM-class
write. -/
theorem program_sam_only_rnsam_writes_witness :
    (RegWrite.mk 7 true RegClass.rnsam
      { base := 0, size := 0x1000, hashed := false, target := 10 }).cls =
      RegClass.rnsam :=
  (program_sam_only_rnsam_writes
    { hnf_count := 1, hnf_offset := [64], external_rnsam_count := 1,
      external_rnsam_table := [(7, 0x900)], internal_rnsam_count := 1,
      internal_rnsam_table := [0x500], rnd_count := 0, rnd_ldid := [],
      rni_count := 0, rni_ldid := [], initialized := true }
    [{ base := 0, size := 0x1000, type := MemRegionType.Io, node_id := 10 }]
    true
    (RegWrite.mk 7 true RegClass.rnsam
      { base := 0, size := 0x1000, hashed := false, target := 10 })
    (by decide)).1

/-- A carve-out entry's type makes `regionHashed` false. -/
lemma isSub_not_hashed (e : MemoryRegionMap) (h : isSub e = true) :
    regionHashed e.type = false := by
  unfold isSub at h
  unfold regionHashed
  cases hty : e.type <;> simp [hty] at h ⊢

/-- C2: after a successful `program_sam` of a region map holding a
SYSCACHE_SUB carve-out nested inside a SYSCACHE entry, every address
inside the carve-out decodes to the carve-out's explicit target node —
never to a hashed pool node — whatever the relative order of the two
entries in the caller-supplied map; and internally every hashed
SYSCACHE entry stands before every SYSCACHE_SUB entry in the order the
engine writes (`orderedEntries`). -/
theorem syscache_sub_carveout_wins (ctx : cmn600_ctx)
    (mmap : List MemoryRegionMap) (linkCoherent : Bool)
    (sub sc : MemoryRegionMap) (G P a : Nat)
    (hok : (program_sam ctx mmap linkCoherent).1 = .ok ())
    (hsub : sub ∈ mmap) (hsubty : sub.type = MemRegionType.SYSCACHE_SUB)
    (hsc : sc ∈ mmap) (hscty : sc.type = MemRegionType.SYSCACHE)
    (hnest : nestedIn sub sc = true)
    (ha1 : sub.base ≤ a) (ha2 : a < sub.base + sub.size) :
    decodeRoute (programmedTable mmap) G P a =
      some (Route.explicitTo sub.node_id) ∧
    (∀ i j (hi : i < (orderedEntries mmap).length)
        (hj : j < (orderedEntries mmap).length),
      regionHashed ((orderedEntries mmap).get ⟨i, hi⟩).type = true →
      isSub ((orderedEntries mmap).get ⟨j, hj⟩) = true →
      i < j) := by
  have hv := program_sam_ok_valid ctx mmap linkCoherent hok
  have hpw : pairwiseOk mmap = true := by
    unfold regionMapValid at hv
    rw [Bool.and_eq_true] at hv
    exact hv.2
  have hsubb : isSub sub = true := by
    simp [isSub, hsubty]
  have hina : inRegion sub a = true := by
    unfold inRegion containsAddr
    simp only [Bool.and_eq_true, decide_eq_true_eq]
    omega
  have htbl : programmedTable mmap =
      (mmap.filter (fun e => !(isSub e))).map toDecode ++
        (mmap.filter isSub).map toDecode := by
    unfold programmedTable orderedEntries
    rw [List.map_append]
  have hcm : toDecode sub ∈ (mmap.filter isSub).map toDecode :=
    List.mem_map_of_mem toDecode (List.mem_filter.mpr ⟨hsub, hsubb⟩)
  have huniq : ∀ d ∈ (mmap.filter isSub).map toDecode,
      inRange d a = true → d = toDecode sub := by
    intro d hd hda
    rcases List.mem_map.mp hd with ⟨e2, he2, rfl⟩
    have he2f := List.mem_filter.mp he2
    rw [inRange_toDecode] at hda
    exact congrArg toDecode
      (nonHashed_unique mmap hpw e2 sub he2f.1 hsub
        (isSub_nonHashed e2 he2f.2) (isSub_nonHashed sub hsubb) a hda hina)
  have hlook : lookupEntry (programmedTable mmap) a = some (toDecode sub) := by
    unfold lookupEntry
    rw [htbl, List.foldl_append]
    exact foldl_lookupStep_pick a (toDecode sub) _ _ hcm
      (by rw [inRange_toDecode]; exact hina) huniq
  constructor
  · simp [decodeRoute, hlook, toDecode, regionHashed, hsubty]
  · intro i j hi hj hhash hsubj
    rw [List.get_eq_getElem] at hhash hsubj
    have hi2 : i < (mmap.filter (fun e => !(isSub e))).length := by
      by_contra hni
      push_neg at hni
      have hmem : (orderedEntries mmap)[i] ∈ mmap.filter isSub := by
        have h3 : (orderedEntries mmap)[i] =
            ((mmap.filter (fun e => !(isSub e))) ++ (mmap.filter isSub))[i] :=
          rfl
        rw [h3, List.getElem_append_right hni]
        exact List.getElem_mem _
      have hsi : isSub ((orderedEntries mmap)[i]) = true :=
        (List.mem_filter.mp hmem).2
      rw [isSub_not_hashed _ hsi] at hhash
      exact Bool.noConfusion hhash
    have hj2 : (mmap.filter (fun e => !(isSub e))).length ≤ j := by
      by_contra hnj
      push_neg at hnj
      have hmem : (orderedEntries mmap)[j] ∈
          mmap.filter (fun e => !(isSub e)) := by
        have h3 : (orderedEntries mmap)[j] =
            ((mmap.filter (fun e => !(isSub e))) ++ (mmap.filter isSub))[j] :=
          rfl
        rw [h3, List.getElem_append_left hnj]
        exact List.getElem_mem _
      have hsj : (!(isSub ((orderedEntries mmap)[j]))) = true :=
        (List.mem_filter.mp hmem).2
      rw [hsubj] at hsj
      exact Bool.noConfusion hsj
    omega

/-- Witness for C2: the caller lists the carve-out
`[0x1000, 0x2000) → 42` before the enclosing SYSCACHE region
`[0, 0x100000)`; address `0x1800` still decodes to the carve-out's
explicit node 42, not to a hashed pool node. -/
theorem syscache_sub_carveout_wins_witness :
    decodeRoute (programmedTable
      [{ base := 0x1000, size := 0x1000, type := MemRegionType.SYSCACHE_SUB,
         node_id := 42 },
       { base := 0, size := 0x100000, type := MemRegionType.SYSCACHE,
         node_id := 0 }]) 64 4 0x1800 =
      some (Route.explicitTo 42) :=
  (syscache_sub_carveout_wins initialCtx
    [{ base := 0x1000, size := 0x1000, type := MemRegionType.SYSCACHE_SUB,
       node_id := 42 },
     { base := 0, size := 0x100000, type := MemRegionType.SYSCACHE,
       node_id := 0 }] true
    { base := 0x1000, size := 0x1000, type := MemRegionType.SYSCACHE_SUB,
      node_id := 42 }
    { base := 0, size := 0x100000, type := MemRegionType.SYSCACHE,
      node_id := 0 }
    64 4 0x1800 rfl (by simp) rfl (by simp) rfl (by decide) (by decide)
    (by decide)).1

end CMN600
